import Mathlib

/-!
Verification of the inventory dashboard `src/variance.py`.

The program operates on pandas DataFrames loaded from a spreadsheet.  We embed
a DataFrame as a `Table`: an ordered list of column labels together with an
ordered list of rows, where each row is an association list from column label
to cell.  A cell is `Option String`: `none` models a pandas missing value
(`NaN` / `pd.NA`), `some s` a present (string-coerced) value.  A label absent
from a row models a column absent from the frame; in every well-formed frame
the keys of every row are exactly the column labels (`Table.WF` below).

Python string primitives used by the code are embedded as computable functions
on `String.data` (lists of characters), faithful on the ASCII data the
dashboard handles:
* `str.strip`  -> `trimStr`
* `str.lower`  -> `toLowerStr`, `str.upper` -> `toUpperStr`
* `a in b` (substring test) -> `containsSub`
* `str(missing_value)` -> the string "nan" (Python renders a float NaN so)
* Python `list.sort()` on strings -> `sortStrings` (lexicographic by code
  point, via `strLeB`), `pandas.Series.unique` -> `pdUnique` (first
  occurrence kept).
-/

/-! ## String primitives -/

def toLowerStr (s : String) : String := ⟨s.data.map Char.toLower⟩

def toUpperStr (s : String) : String := ⟨s.data.map Char.toUpper⟩

/-- Python `str.strip()`: drop leading and trailing whitespace. -/
def trimStr (s : String) : String :=
  ⟨((s.data.dropWhile Char.isWhitespace).reverse.dropWhile Char.isWhitespace).reverse⟩

/-- `startsWithL q s`: the character list `q` is a leading segment of `s`. -/
def startsWithL : List Char → List Char → Bool
  | [], _ => true
  | _ :: _, [] => false
  | a :: as, b :: bs => a == b && startsWithL as bs

/-- Python substring containment `q in s`, on character lists. -/
def containsSub : List Char → List Char → Bool
  | q, [] => q.isEmpty
  | q, c :: t => startsWithL q (c :: t) || containsSub q t

/-- Code-point comparison of character lists, as Python compares strings. -/
def lexLeB : List Char → List Char → Bool
  | [], _ => true
  | _ :: _, [] => false
  | a :: as, b :: bs =>
    if a.toNat < b.toNat then true
    else if b.toNat < a.toNat then false
    else lexLeB as bs

def strLeB (x y : String) : Bool := lexLeB x.data y.data

/-- Insert into a sorted list, keeping it sorted by `strLeB`. -/
def insertSorted (x : String) : List String → List String
  | [] => [x]
  | y :: ys => if strLeB x y then x :: y :: ys else y :: insertSorted x ys

/-- Python `list.sort()` on strings (ascending, lexicographic). -/
def sortStrings : List String → List String
  | [] => []
  | x :: xs => insertSorted x (sortStrings xs)

/-- Worker for `pdUnique`: keep the elements not seen before. -/
def pdUniqueAux (seen : List String) : List String → List String
  | [] => []
  | x :: xs => if x ∈ seen then pdUniqueAux seen xs else x :: pdUniqueAux (x :: seen) xs

/-- `pandas.Series.unique`: deduplicate keeping the first occurrence. -/
def pdUnique (l : List String) : List String := pdUniqueAux [] l

/-! ## Tables (pandas DataFrames) -/

/-- A cell of a DataFrame: `none` is a pandas missing value. -/
abbrev Cell := Option String

/-- A row: association list from column label to cell. -/
abbrev Row := List (String × Cell)

/-- A DataFrame: ordered column labels and ordered rows. -/
structure Table where
  cols : List String
  rows : List Row
deriving DecidableEq, Repr

/-- `pd.DataFrame()`: the empty frame, no rows and no columns. -/
def Table.empty : Table := ⟨[], []⟩

/-- Well-formedness: every key of every row is a declared column label. -/
def Table.WF (t : Table) : Prop := ∀ r ∈ t.rows, ∀ p ∈ r, p.1 ∈ t.cols

instance (t : Table) : Decidable t.WF := by
  unfold Table.WF; infer_instance

/-- `row.get(c)` semantics: `none` if the label is absent from the row,
`some cell` otherwise (the cell itself may be a missing value). -/
def rowGetCell (r : Row) (c : String) : Option Cell :=
  (r.find? (fun p => p.1 == c)).map (fun p => p.2)

/-- Column lookup flattening "label absent" and "value missing" into `none`,
as `df[c]` does for a row when the column is known to exist. -/
def getCellFlat (r : Row) (c : String) : Cell :=
  match r.find? (fun p => p.1 == c) with
  | some p => p.2
  | none => none

/-- `df.columns.str.strip()`: strip every column label (and row key). -/
def Table.stripCols (t : Table) : Table :=
  ⟨t.cols.map trimStr, t.rows.map (fun r => r.map (fun p => (trimStr p.1, p.2)))⟩

/-- Rename one key of a row. -/
def renameKey (old new : String) (r : Row) : Row :=
  r.map (fun p => if p.1 == old then (new, p.2) else p)

/-- `df.rename(columns=\x7bold: new\x7d)`: a label not present is silently
ignored. -/
def Table.renameCol (t : Table) (old new : String) : Table :=
  ⟨t.cols.map (fun c => if c == old then new else c), t.rows.map (renameKey old new)⟩

/-- `df[name] = v` with a scalar `v`: overwrite the column if the label
exists, otherwise append a new column holding `v` in every row. -/
def Table.setCol (t : Table) (name : String) (v : Cell) : Table :=
  if name ∈ t.cols then
    ⟨t.cols, t.rows.map (fun r => r.map (fun p => if p.1 == name then (name, v) else p))⟩
  else
    ⟨t.cols ++ [name], t.rows.map (fun r => r ++ [(name, v)])⟩

/-- A row all of whose cells are missing values. -/
def Row.allMissing (r : Row) : Bool := r.all (fun p => p.2.isNone)

/-- `df.dropna(how='all')`: drop the rows whose every cell is missing. -/
def Table.dropAllNaRows (t : Table) : Table :=
  ⟨t.cols, t.rows.filter (fun r => !r.allMissing)⟩

/-- `df.drop(columns=[c])`, guarded by a membership check in the source. -/
def Table.dropCol (t : Table) (c : String) : Table :=
  ⟨t.cols.filter (fun x => x != c), t.rows.map (fun r => r.filter (fun p => p.1 != c))⟩

/-- `df.empty`: true when either axis has length zero. -/
def Table.isEmptyDf (t : Table) : Bool := t.rows.isEmpty || t.cols.isEmpty

/-! ## Configuration constants (`variance.py` lines 32-34) -/

def CATEGORY_COLUMN : String := "Category"

def COST_COLUMN : String := "cost"

def COST_COLUMN_FOUND : String := "internal_cost"

/-! ## Loader (`load_gsheet`, lines 41-79) -/

/-- Line 59: the source columns whose stripped, lowercased label is "cost". -/
def costColMatch (cols : List String) : List String :=
  cols.filter (fun col => toLowerStr (trimStr col) == COST_COLUMN)

/-- Lines 54-73: the data cleaning and standardization applied to a
successfully fetched frame.  Note that line 56 re-assigns the (stripped)
column labels before line 63 renames using the original, unstripped matched
label. -/
def normalizeDf (df : Table) : Table :=
  let original_cols := df.cols
  let df1 := df.stripCols
  let df2 :=
    match costColMatch original_cols with
    | c :: _ => df1.renameCol c COST_COLUMN_FOUND
    | [] => df1.setCol COST_COLUMN_FOUND none
  let df3 :=
    if CATEGORY_COLUMN ∈ df2.cols then df2
    else df2.setCol CATEGORY_COLUMN (some "Uncategorized")
  df3.dropAllNaRows

/-- Result of `load_gsheet`: the returned frame plus the error message shown
through `st.error`, if any. -/
structure LoadResult where
  table : Table
  errorMsg : Option String
deriving DecidableEq, Repr

/-- `load_gsheet` (lines 41-79).  The external fetch (`st.connection` /
`conn.read`) is passed in as an `Except`: `.ok df` is a successful fetch of
the raw frame, `.error e` any transport/parse failure raised inside the
`try` block.  On failure the exception is caught, an error message is
reported and an empty frame is returned. -/
def load_gsheet (data_label worksheet_name : String) (fetched : Except String Table) :
    LoadResult :=
  match fetched with
  | Except.ok df => ⟨normalizeDf df, none⟩
  | Except.error e =>
      ⟨Table.empty,
       some ("Error loading " ++ data_label ++ " from worksheet " ++ worksheet_name ++
             ". Please check the sheet URL, tab name, and secrets setup: " ++ e)⟩

/-! ## Display projector (`create_overview_df`, lines 112-134) -/

def create_overview_df (df : Table) (show_cost_in_table : Bool := false) : Table :=
  if df.isEmptyDf then Table.empty
  else
    let df_display := df
    let df_display :=
      if show_cost_in_table = false ∧ COST_COLUMN_FOUND ∈ df_display.cols then
        df_display.dropCol COST_COLUMN_FOUND
      else if show_cost_in_table = true ∧ COST_COLUMN_FOUND ∈ df_display.cols then
        df_display.renameCol COST_COLUMN_FOUND (toUpperStr COST_COLUMN)
      else df_display
    if CATEGORY_COLUMN ∈ df_display.cols then df_display.dropCol CATEGORY_COLUMN
    else df_display

/-! ## Category index and filter (lines 143-163) -/

/-- `df[c].dropna().astype(str)`: the present values of a column, in row
order (string cells, so `astype(str)` is the identity). -/
def columnTextValues (df : Table) (c : String) : List String :=
  df.rows.filterMap (fun r => getCellFlat r c)

/-- Lines 144-149: the category index offered in the sidebar. -/
def all_categories (stock_df arrival_df : Table) : List String :=
  let vals := columnTextValues stock_df CATEGORY_COLUMN ++
              columnTextValues arrival_df CATEGORY_COLUMN
  let stripped := vals.map trimStr
  "All Categories" :: sortStrings (pdUnique stripped)

/-- `astype(str)` on a single cell: a missing value prints as "nan". -/
def astypeStr : Cell → String
  | none => "nan"
  | some s => s

/-- Lines 157-163: the sidebar category filter applied to one frame. -/
def filterByCategory (df : Table) (selected_category : String) : Table :=
  if selected_category == "All Categories" then df
  else
    ⟨df.cols,
     df.rows.filter (fun r =>
       trimStr (astypeStr (getCellFlat r CATEGORY_COLUMN)) == trimStr selected_category)⟩

/-! ## Text search (`search_df`, lines 207-219) -/

/-- Line 211: `str(row.get(c, ""))` — the label absent from the row yields
the default `""`; a present but missing value is a float NaN, which `str`
renders as "nan". -/
def searchFieldStr (r : Row) (c : String) : String :=
  match rowGetCell r c with
  | none => ""
  | some none => "nan"
  | some (some s) => s

/-- One disjunct of the line 211 lambda: the query occurs in the lowercased
coerced field value. -/
def fieldMatchB (query : String) (r : Row) (c : String) : Bool :=
  containsSub query.data (toLowerStr (searchFieldStr r c)).data

/-- The line 211-212 row predicate: OR over the two designated fields. -/
def rowMatchesQuery (query : String) (r : Row) : Bool :=
  fieldMatchB query r "itembarcode" || fieldMatchB query r "description"

/-- `search_df` (lines 207-213). -/
def search_df (df : Table) (query : String) : Table :=
  if df.isEmptyDf then Table.empty
  else ⟨df.cols, df.rows.filter (fun r => rowMatchesQuery query r)⟩

/-- Lines 215-219: the search-results view of the page.  The two `search_df`
calls are applied to the original, unfiltered loaded frames; the sidebar
category selection is in scope (it drives the tabbed view) but is not used
here. -/
def searchResultsView (stock_df arrival_df : Table)
    (selected_category query : String) : Table × Table :=
  (search_df stock_df query, search_df arrival_df query)

/-- The cells of one column, in row order (lookup by first matching key). -/
def colCells (t : Table) (c : String) : List Cell :=
  t.rows.map (fun r => getCellFlat r c)

/-! ## Lemmas about the string primitives -/

theorem strDataAppend (a b : String) : (a ++ b).data = a.data ++ b.data := rfl

theorem strExt {a b : String} (h : a.data = b.data) : a = b := by
  cases a; cases b; simp_all

theorem startsWithL_iff (q : List Char) :
    ∀ s, startsWithL q s = true ↔ ∃ t, s = q ++ t := by
  induction q with
  | nil => intro s; simp [startsWithL]
  | cons a as ih =>
    intro s
    cases s with
    | nil => simp [startsWithL]
    | cons b bs =>
      simp only [startsWithL, Bool.and_eq_true, beq_iff_eq, ih]
      constructor
      · rintro ⟨rfl, t, rfl⟩; exact ⟨t, rfl⟩
      · rintro ⟨t, ht⟩
        rw [List.cons_append] at ht
        cases ht
        exact ⟨rfl, t, rfl⟩

theorem containsSub_iff (q : List Char) :
    ∀ s, containsSub q s = true ↔ ∃ l r, s = l ++ q ++ r := by
  intro s
  induction s with
  | nil =>
    simp only [containsSub, List.isEmpty_iff]
    constructor
    · rintro rfl; exact ⟨[], [], rfl⟩
    · rintro ⟨l, r, h⟩
      rcases List.append_eq_nil.mp (List.append_eq_nil.mp h.symm).1 with ⟨-, h2⟩
      exact h2
  | cons c t ih =>
    simp only [containsSub, Bool.or_eq_true, startsWithL_iff, ih]
    constructor
    · rintro (⟨r, hr⟩ | ⟨l, r, hr⟩)
      · exact ⟨[], r, by simpa using hr⟩
      · exact ⟨c :: l, r, by simp [hr]⟩
    · rintro ⟨l, r, hr⟩
      cases l with
      | nil => exact Or.inl ⟨r, by simpa using hr⟩
      | cons c2 l2 =>
        rw [List.cons_append, List.cons_append] at hr
        cases hr
        exact Or.inr ⟨l2, r, rfl⟩

theorem containsSubStr_iff (q s : String) :
    containsSub q.data s.data = true ↔ ∃ pre post : String, s = pre ++ q ++ post := by
  rw [containsSub_iff]
  constructor
  · rintro ⟨l, r, h⟩
    exact ⟨⟨l⟩, ⟨r⟩, strExt (by simpa [strDataAppend] using h)⟩
  · rintro ⟨pre, post, rfl⟩
    exact ⟨pre.data, post.data, by simp [strDataAppend]⟩

theorem lexLeB_total : ∀ x y : List Char, lexLeB x y = true ∨ lexLeB y x = true := by
  intro x
  induction x with
  | nil => intro y; left; rfl
  | cons a as ih =>
    intro y
    cases y with
    | nil => right; rfl
    | cons b bs =>
      by_cases hab : a.toNat < b.toNat
      · left; simp [lexLeB, hab]
      · by_cases hba : b.toNat < a.toNat
        · right; simp [lexLeB, hba]
        · have h1 : lexLeB (a :: as) (b :: bs) = lexLeB as bs := by simp [lexLeB, hab, hba]
          have h2 : lexLeB (b :: bs) (a :: as) = lexLeB bs as := by simp [lexLeB, hab, hba]
          rw [h1, h2]; exact ih bs

theorem lexLeB_trans :
    ∀ x y z : List Char, lexLeB x y = true → lexLeB y z = true → lexLeB x z = true := by
  intro x
  induction x with
  | nil => intro y z _ _; rfl
  | cons a as ih =>
    intro y z hxy hyz
    cases y with
    | nil => simp [lexLeB] at hxy
    | cons b bs =>
      cases z with
      | nil => simp [lexLeB] at hyz
      | cons c cs =>
        simp only [lexLeB] at hxy hyz ⊢
        by_cases hab : a.toNat < b.toNat
        · by_cases hbc : b.toNat < c.toNat
          · simp [show a.toNat < c.toNat by omega]
          · by_cases hcb : c.toNat < b.toNat
            · simp [hbc, hcb] at hyz
            · simp [show a.toNat < c.toNat by omega]
        · by_cases hba : b.toNat < a.toNat
          · simp [hab, hba] at hxy
          · by_cases hbc : b.toNat < c.toNat
            · simp [show a.toNat < c.toNat by omega]
            · by_cases hcb : c.toNat < b.toNat
              · simp [hbc, hcb] at hyz
              · rw [if_neg hab, if_neg hba] at hxy
                rw [if_neg hbc, if_neg hcb] at hyz
                rw [if_neg (show ¬(a.toNat < c.toNat) by omega),
                  if_neg (show ¬(c.toNat < a.toNat) by omega)]
                exact ih bs cs hxy hyz

theorem strLeB_total (x y : String) : strLeB x y = true ∨ strLeB y x = true :=
  lexLeB_total x.data y.data

theorem strLeB_trans {x y z : String} (h1 : strLeB x y = true) (h2 : strLeB y z = true) :
    strLeB x z = true :=
  lexLeB_trans x.data y.data z.data h1 h2

theorem insertSorted_perm (x : String) (l : List String) :
    (insertSorted x l).Perm (x :: l) := by
  induction l with
  | nil => exact List.Perm.refl _
  | cons y ys ih =>
    by_cases h : strLeB x y = true
    · simp only [insertSorted, h, if_true]
      exact List.Perm.refl _
    · simp only [insertSorted, h, if_false, Bool.false_eq_true, if_neg, not_false_iff]
      exact (ih.cons y).trans (List.Perm.swap x y ys)

theorem mem_insertSorted {a x : String} {l : List String} :
    a ∈ insertSorted x l ↔ a = x ∨ a ∈ l := by
  rw [(insertSorted_perm x l).mem_iff, List.mem_cons]

theorem pairwise_insertSorted (x : String) (l : List String)
    (h : l.Pairwise (fun a b => strLeB a b = true)) :
    (insertSorted x l).Pairwise (fun a b => strLeB a b = true) := by
  induction l with
  | nil => simp [insertSorted]
  | cons y ys ih =>
    rcases List.pairwise_cons.mp h with ⟨hy, hys⟩
    by_cases hxy : strLeB x y = true
    · simp only [insertSorted, hxy, if_true]
      refine List.pairwise_cons.mpr ⟨?_, h⟩
      intro z hz
      rcases List.mem_cons.mp hz with rfl | hz
      · exact hxy
      · exact strLeB_trans hxy (hy z hz)
    · simp only [insertSorted, hxy, if_false, Bool.false_eq_true, if_neg, not_false_iff]
      refine List.pairwise_cons.mpr ⟨?_, ih hys⟩
      intro z hz
      rcases mem_insertSorted.mp hz with rfl | hz
      · rcases strLeB_total y z with hyx | hxy2
        · exact hyx
        · exact absurd hxy2 hxy
      · exact hy z hz

theorem sortStrings_perm (l : List String) : (sortStrings l).Perm l := by
  induction l with
  | nil => exact List.Perm.refl _
  | cons x xs ih => exact (insertSorted_perm x (sortStrings xs)).trans (ih.cons x)

theorem mem_sortStrings {a : String} {l : List String} : a ∈ sortStrings l ↔ a ∈ l :=
  (sortStrings_perm l).mem_iff

theorem sortStrings_pairwise (l : List String) :
    (sortStrings l).Pairwise (fun a b => strLeB a b = true) := by
  induction l with
  | nil => simp [sortStrings]
  | cons x xs ih => exact pairwise_insertSorted x (sortStrings xs) ih

theorem sortStrings_nodup {l : List String} (h : l.Nodup) : (sortStrings l).Nodup :=
  (sortStrings_perm l).nodup_iff.mpr h

theorem mem_pdUniqueAux {a : String} :
    ∀ (l seen : List String), a ∈ pdUniqueAux seen l ↔ a ∈ l ∧ a ∉ seen := by
  intro l
  induction l with
  | nil => intro seen; simp [pdUniqueAux]
  | cons x xs ih =>
    intro seen
    by_cases hx : x ∈ seen
    · simp only [pdUniqueAux, hx, if_true, ih, List.mem_cons]
      constructor
      · rintro ⟨h1, h2⟩; exact ⟨Or.inr h1, h2⟩
      · rintro ⟨h1, h2⟩
        rcases h1 with rfl | h1
        · exact absurd hx h2
        · exact ⟨h1, h2⟩
    · simp only [pdUniqueAux, hx, if_false, if_neg, not_false_iff, List.mem_cons, ih]
      by_cases hax : a = x
      · subst hax; simp [hx]
      · simp [hax]

theorem mem_pdUnique {a : String} {l : List String} : a ∈ pdUnique l ↔ a ∈ l := by
  rw [pdUnique, mem_pdUniqueAux]
  simp

theorem pdUniqueAux_nodup : ∀ (l seen : List String), (pdUniqueAux seen l).Nodup := by
  intro l
  induction l with
  | nil => intro seen; simp [pdUniqueAux]
  | cons x xs ih =>
    intro seen
    by_cases hx : x ∈ seen
    · simpa only [pdUniqueAux, hx, if_true] using ih seen
    · simp only [pdUniqueAux, hx, if_false, if_neg, not_false_iff]
      refine List.nodup_cons.mpr ⟨?_, ih (x :: seen)⟩
      intro hmem
      exact (mem_pdUniqueAux xs (x :: seen)).mp hmem |>.2 (List.mem_cons_self x seen)

theorem pdUnique_nodup (l : List String) : (pdUnique l).Nodup := pdUniqueAux_nodup l []

/-! ## Lemmas about row lookups -/

theorem renameKey_cons (o n : String) (p : String × Cell) (rs : Row) :
    renameKey o n (p :: rs) = (if p.1 == o then (n, p.2) else p) :: renameKey o n rs := rfl

theorem find?_filter_ne (r : Row) {c d : String} (hcd : c ≠ d) :
    (r.filter (fun p => p.1 != d)).find? (fun p => p.1 == c) =
      r.find? (fun p => p.1 == c) := by
  induction r with
  | nil => rfl
  | cons p rs ih =>
    by_cases h1 : p.1 = d
    · rw [List.filter_cons, if_neg (by simp [h1])]
      rw [List.find?_cons_of_neg _ (by simp [h1]; exact fun h => hcd h.symm)]
      exact ih
    · rw [List.filter_cons, if_pos (by simp [h1])]
      by_cases h2 : p.1 = c
      · rw [List.find?_cons_of_pos _ (by simp [h2]), List.find?_cons_of_pos _ (by simp [h2])]
      · rw [List.find?_cons_of_neg _ (by simp [h2]), List.find?_cons_of_neg _ (by simp [h2])]
        exact ih

theorem find?_renameKey_ne (r : Row) {o n c : String} (hco : c ≠ o) (hcn : c ≠ n) :
    (renameKey o n r).find? (fun p => p.1 == c) = r.find? (fun p => p.1 == c) := by
  induction r with
  | nil => rfl
  | cons p rs ih =>
    rw [renameKey_cons]
    by_cases h1 : p.1 = o
    · rw [if_pos (by simp [h1])]
      rw [List.find?_cons_of_neg _ (by simp; exact fun h => hcn h.symm)]
      rw [List.find?_cons_of_neg _ (by simp [h1]; exact fun h => hco h.symm)]
      exact ih
    · rw [if_neg (by simp [h1])]
      by_cases h2 : p.1 = c
      · rw [List.find?_cons_of_pos _ (by simp [h2]), List.find?_cons_of_pos _ (by simp [h2])]
      · rw [List.find?_cons_of_neg _ (by simp [h2]), List.find?_cons_of_neg _ (by simp [h2])]
        exact ih

theorem find?_renameKey_target (r : Row) {o n : String} (hno : ∀ p ∈ r, p.1 ≠ n) :
    (renameKey o n r).find? (fun p => p.1 == n) =
      (r.find? (fun p => p.1 == o)).map (fun p => (n, p.2)) := by
  induction r with
  | nil => rfl
  | cons p rs ih =>
    have hpn : p.1 ≠ n := hno p (List.mem_cons_self p rs)
    have ih2 := ih (fun q hq => hno q (List.mem_cons_of_mem p hq))
    rw [renameKey_cons]
    by_cases h1 : p.1 = o
    · rw [if_pos (by simp [h1])]
      rw [List.find?_cons_of_pos _ (by simp), List.find?_cons_of_pos _ (by simp [h1])]
      rfl
    · rw [if_neg (by simp [h1])]
      rw [List.find?_cons_of_neg _ (by simp [hpn])]
      rw [List.find?_cons_of_neg _ (by simp [h1])]
      exact ih2

theorem getCellFlat_filter_ne (r : Row) {c d : String} (hcd : c ≠ d) :
    getCellFlat (r.filter (fun p => p.1 != d)) c = getCellFlat r c := by
  simp only [getCellFlat, find?_filter_ne r hcd]

theorem getCellFlat_renameKey_ne (r : Row) {o n c : String} (hco : c ≠ o) (hcn : c ≠ n) :
    getCellFlat (renameKey o n r) c = getCellFlat r c := by
  simp only [getCellFlat, find?_renameKey_ne r hco hcn]

theorem getCellFlat_renameKey_target (r : Row) {o n : String} (hno : ∀ p ∈ r, p.1 ≠ n) :
    getCellFlat (renameKey o n r) n = getCellFlat r o := by
  simp only [getCellFlat, find?_renameKey_target r hno]
  cases r.find? (fun p => p.1 == o) <;> rfl

theorem mapCongrMem {α β : Type} {f g : α → β} :
    ∀ (l : List α), (∀ a ∈ l, f a = g a) → l.map f = l.map g := by
  intro l
  induction l with
  | nil => intro _; rfl
  | cons x xs ih =>
    intro h
    simp only [List.map_cons]
    rw [h x (List.mem_cons_self x xs), ih (fun a ha => h a (List.mem_cons_of_mem x ha))]

/-! ## Lemmas about missing-value preservation -/

theorem allMissing_map_sndPreserving (f : String × Cell → String × Cell)
    (hf : ∀ p, (f p).2 = p.2) (r : Row) :
    Row.allMissing (r.map f) = Row.allMissing r := by
  induction r with
  | nil => rfl
  | cons p rs ih =>
    simp only [List.map_cons, Row.allMissing, List.all_cons] at *
    rw [hf p, ih]

theorem allMissing_append_none (r : Row) (n : String) :
    Row.allMissing (r ++ [(n, (none : Cell))]) = Row.allMissing r := by
  simp [Row.allMissing, List.all_append]

theorem filter_notAllMissing_map (f : Row → Row)
    (hf : ∀ r, Row.allMissing (f r) = Row.allMissing r) (l : List Row) :
    ((l.map f).filter (fun r => !Row.allMissing r)).length =
      (l.filter (fun r => !Row.allMissing r)).length := by
  induction l with
  | nil => rfl
  | cons r rs ih =>
    simp only [List.map_cons, List.filter_cons, hf r]
    cases h : Row.allMissing r <;> simp [h, ih]

theorem allMissing_map_mono (f : String × Cell → String × Cell)
    (hf : ∀ p, (f p).2 = none ∨ (f p).2 = p.2) (r : Row)
    (h : Row.allMissing r = true) : Row.allMissing (r.map f) = true := by
  induction r with
  | nil => rfl
  | cons p rs ih =>
    simp only [Row.allMissing, List.all_cons, Bool.and_eq_true] at h
    simp only [List.map_cons, Row.allMissing, List.all_cons, Bool.and_eq_true]
    refine ⟨?_, ih h.2⟩
    rcases hf p with h1 | h1
    · rw [h1]; rfl
    · rw [h1]; exact h.1

theorem filter_notAllMissing_map_le (f : Row → Row)
    (hf : ∀ r, Row.allMissing r = true → Row.allMissing (f r) = true) (l : List Row) :
    ((l.map f).filter (fun r => !Row.allMissing r)).length ≤
      (l.filter (fun r => !Row.allMissing r)).length := by
  induction l with
  | nil => exact Nat.le_refl 0
  | cons r rs ih =>
    simp only [List.map_cons, List.filter_cons]
    cases h2 : Row.allMissing (f r)
    · cases h : Row.allMissing r
      · simp only [h2, h, Bool.not_false, if_true, List.length_cons]
        omega
      · exact absurd (hf r h) (by simp [h2])
    · cases h : Row.allMissing r
      · simp only [h2, h, Bool.not_false, Bool.not_true, if_true, Bool.false_eq_true,
          if_false, List.length_cons]
        omega
      · simp only [h2, h, Bool.not_true, Bool.false_eq_true, if_false]
        exact ih


/-! ## Helper facts for the search characterization -/

theorem not_exists_decomp_of_ne_empty {q : String} (hq : q ≠ "") {s : String}
    (hs : s = "") : ¬ ∃ pre post : String, s = pre ++ q ++ post := by
  rintro ⟨pre, post, hp⟩
  rw [hs] at hp
  have hd := congrArg String.data hp
  rw [strDataAppend, strDataAppend] at hd
  rcases List.append_eq_nil.mp (List.append_eq_nil.mp hd.symm).1 with ⟨-, hqd⟩
  exact hq (strExt hqd)

theorem searchFieldStr_nil (c : String) : searchFieldStr ([] : Row) c = "" := rfl

theorem fieldMatchB_iff (q : String) (r : Row) (c : String) :
    fieldMatchB q r c = true ↔
      ∃ pre post : String, toLowerStr (searchFieldStr r c) = pre ++ q ++ post := by
  rw [fieldMatchB]
  exact containsSubStr_iff q (toLowerStr (searchFieldStr r c))

/-! ## Claims -/

/-- C1: the claim states that after normalization every row of a loaded table
has the standardized cost field `internal_cost`, for every source header
shape including cost headers with surrounding whitespace.  The code violates
this: on a fetched table whose only column is "  cost " (with whitespace),
the header is matched as a cost column, but the rename at line 63 uses the
original unstripped label against the already-stripped columns and is a
silent no-op, so the normalized table has a column "cost" and no
`internal_cost` at all.  This theorem evaluates the embedded loader at that
failing input. -/
theorem claim1_cost_header_whitespace :
    toLowerStr (trimStr "  cost ") = COST_COLUMN
    ∧ costColMatch ["  cost "] = ["  cost "]
    ∧ (normalizeDf ⟨["  cost "], [[("  cost ", some "5")]]⟩).cols = ["cost", CATEGORY_COLUMN]
    ∧ COST_COLUMN_FOUND ∉ (normalizeDf ⟨["  cost "], [[("  cost ", some "5")]]⟩).cols
    ∧ ((normalizeDf ⟨["  cost "], [[("  cost ", some "5")]]⟩).rows.all
        (fun r => rowGetCell r COST_COLUMN_FOUND == none)) = true
    ∧ (load_gsheet "Warehouse Stock" "stock"
        (Except.ok ⟨["  cost "], [[("  cost ", some "5")]]⟩)).table
        = normalizeDf ⟨["  cost "], [[("  cost ", some "5")]]⟩ := by
  refine ⟨by decide, by decide, by decide, by decide, by decide, rfl⟩

/-- C2 (counterexample): the claim says a missing field value is treated as
the empty string in Text Search, so a row with a missing field can never be
matched through that field by a non-empty query.  In the code a present
column whose value is missing is coerced by `str(...)` to the string "nan",
and the non-empty query "nan" matches the row exactly through its missing
`itembarcode` field (its `description` "x" does not contain "nan"). -/
theorem claim2_counterexample :
    ("nan" : String) ≠ ""
    ∧ rowGetCell [("itembarcode", (none : Cell)), ("description", some "x")] "itembarcode"
        = some none
    ∧ fieldMatchB "nan" [("itembarcode", (none : Cell)), ("description", some "x")]
        "itembarcode" = true
    ∧ fieldMatchB "nan" [("itembarcode", (none : Cell)), ("description", some "x")]
        "description" = false
    ∧ (search_df ⟨["itembarcode", "description"],
        [[("itembarcode", (none : Cell)), ("description", some "x")]]⟩ "nan").rows
        = [[("itembarcode", (none : Cell)), ("description", some "x")]] := by
  decide

/-- C2 (amended): in Text Search, a designated field whose label is absent
from the row is coerced to the empty string, so it can never be matched by a
non-empty query; a field whose label is present but whose value is missing
is coerced to the string "nan" and is matched exactly by the queries
occurring in "nan". -/
theorem claim2_amended (r : Row) (f q : String) (hq : q ≠ "") :
    (rowGetCell r f = none → fieldMatchB q r f = false)
    ∧ (rowGetCell r f = some none →
        searchFieldStr r f = "nan"
        ∧ fieldMatchB q r f = containsSub q.data "nan".data) := by
  constructor
  · intro h
    have hs : searchFieldStr r f = "" := by unfold searchFieldStr; rw [h]
    unfold fieldMatchB
    rw [hs]
    show containsSub q.data [] = false
    cases hqd : q.data with
    | nil => exact absurd (strExt hqd) hq
    | cons a as => rfl
  · intro h
    have hs : searchFieldStr r f = "nan" := by unfold searchFieldStr; rw [h]
    refine ⟨hs, ?_⟩
    unfold fieldMatchB
    rw [hs]
    congr 1

/-- Witness for C2 (amended) at a concrete row and query. -/
theorem claim2_witness :
    (("ab" : String) ≠ ""
     ∧ rowGetCell [("description", some "x")] "itembarcode" = none
     ∧ rowGetCell [("itembarcode", (none : Cell))] "itembarcode" = some none)
    ∧ fieldMatchB "ab" [("description", some "x")] "itembarcode" = false
    ∧ searchFieldStr [("itembarcode", (none : Cell))] "itembarcode" = "nan" :=
  ⟨⟨by decide, by decide, by decide⟩,
   (claim2_amended [("description", some "x")] "itembarcode" "ab" (by decide)).1 (by decide),
   ((claim2_amended [("itembarcode", (none : Cell))] "itembarcode" "ab" (by decide)).2
     (by decide)).1⟩

/-- C4: the Category Filter with the "All Categories" sentinel returns the
table unchanged, and with any other selection returns exactly the rows whose
category value, coerced to text (a missing value printing as "nan") and
trimmed of surrounding whitespace, equals the trimmed selection, the
original row order being preserved. -/
theorem claim4_category_filter (t : Table) (sel : String) :
    filterByCategory t "All Categories" = t
    ∧ (CATEGORY_COLUMN ∈ t.cols → sel ≠ "All Categories" →
        ((filterByCategory t sel).rows.Sublist t.rows
         ∧ ∀ r ∈ t.rows, (r ∈ (filterByCategory t sel).rows ↔
             trimStr (astypeStr (getCellFlat r CATEGORY_COLUMN)) = trimStr sel))) := by
  constructor
  · rfl
  · intro _ hsel
    constructor
    · rw [filterByCategory, if_neg (by simp [hsel])]
      exact List.filter_sublist t.rows
    · intro r hr
      rw [filterByCategory, if_neg (by simp [hsel])]
      simp [List.mem_filter, hr]

/-- Witness for C4 at a concrete table and selection. -/
theorem claim4_witness :
    (CATEGORY_COLUMN ∈ (Table.mk ["Category"]
        [[("Category", some " Tools ")], [("Category", some "Parts")]]).cols
     ∧ ("Tools" : String) ≠ "All Categories")
    ∧ filterByCategory ⟨["Category"],
        [[("Category", some " Tools ")], [("Category", some "Parts")]]⟩ "All Categories"
        = ⟨["Category"], [[("Category", some " Tools ")], [("Category", some "Parts")]]⟩
    ∧ (filterByCategory ⟨["Category"],
        [[("Category", some " Tools ")], [("Category", some "Parts")]]⟩ "Tools").rows.Sublist
        [[("Category", some " Tools ")], [("Category", some "Parts")]] :=
  ⟨⟨by decide, by decide⟩,
   (claim4_category_filter ⟨["Category"],
      [[("Category", some " Tools ")], [("Category", some "Parts")]]⟩ "Tools").1,
   ((claim4_category_filter ⟨["Category"],
      [[("Category", some " Tools ")], [("Category", some "Parts")]]⟩ "Tools").2
     (by decide) (by decide)).1⟩

/-- C8: on any fetch or parse failure the loader catches the exception,
reports a user-visible error message, and returns the empty frame (zero
rows, no columns); no normalization is applied on the error path, and the
success path reports no error. -/
theorem claim8_loader_error_path (data_label worksheet_name e : String) :
    (load_gsheet data_label worksheet_name (Except.error e)).table = Table.empty
    ∧ (load_gsheet data_label worksheet_name (Except.error e)).table.rows = []
    ∧ (load_gsheet data_label worksheet_name (Except.error e)).table.cols = []
    ∧ (load_gsheet data_label worksheet_name (Except.error e)).errorMsg.isSome = true
    ∧ ∀ df : Table, (load_gsheet data_label worksheet_name (Except.ok df)).errorMsg = none :=
  ⟨rfl, rfl, rfl, rfl, fun _ => rfl⟩

/-- C9: the search-results view is computed from the full, unfiltered loaded
tables; for any non-empty query, any two category selections produce
identical search results. -/
theorem claim9_search_ignores_category (stock_df arrival_df : Table)
    (cat1 cat2 query : String) (hq : query ≠ "") :
    searchResultsView stock_df arrival_df cat1 query =
      searchResultsView stock_df arrival_df cat2 query := rfl

/-- Witness for C9 at concrete tables, selections and query. -/
theorem claim9_witness :
    ("a" : String) ≠ ""
    ∧ searchResultsView ⟨["itembarcode"], [[("itembarcode", some "a1")]]⟩ Table.empty
        "Tools" "a"
        = searchResultsView ⟨["itembarcode"], [[("itembarcode", some "a1")]]⟩ Table.empty
        "Parts" "a" :=
  ⟨by decide,
   claim9_search_ignores_category ⟨["itembarcode"], [[("itembarcode", some "a1")]]⟩
     Table.empty "Tools" "Parts" "a" (by decide)⟩

/-- C10: on any zero-row input table the Display Projector returns the fresh
empty frame with no columns at all, for either value of the reveal-cost
flag, even when the input has columns the projector would otherwise keep. -/
theorem claim10_projector_empty_input (t : Table) (flag : Bool) (h : t.rows = []) :
    create_overview_df t flag = Table.empty := by
  simp [create_overview_df, Table.isEmptyDf, h]

/-- Witness for C10 at a concrete empty table with a retainable column. -/
theorem claim10_witness :
    (Table.mk ["itembarcode"] []).rows = []
    ∧ create_overview_df ⟨["itembarcode"], []⟩ true = Table.empty :=
  ⟨rfl, claim10_projector_empty_input ⟨["itembarcode"], []⟩ true rfl⟩

/-- C3: for every well-formed table and non-empty (pre-trimmed, lowercased)
query, Text Search returns exactly the rows for which the query is a
substring of the lowercased coerced itembarcode value or of the lowercased
coerced description value (OR across the two fields), preserving the
original row order, and on an empty table it returns the empty frame. -/
theorem claim3_text_search (t : Table) (q : String) (hq : q ≠ "") (hwf : t.WF) :
    (search_df t q).rows.Sublist t.rows
    ∧ (∀ r ∈ t.rows, (r ∈ (search_df t q).rows ↔
        ((∃ pre post : String, toLowerStr (searchFieldStr r "itembarcode") = pre ++ q ++ post)
         ∨ (∃ pre post : String,
              toLowerStr (searchFieldStr r "description") = pre ++ q ++ post))))
    ∧ (t.rows = [] → search_df t q = Table.empty) := by
  by_cases h0 : t.rows = []
  · refine ⟨?_, ?_, fun _ => by simp [search_df, Table.isEmptyDf, h0]⟩
    · rw [show search_df t q = Table.empty from by simp [search_df, Table.isEmptyDf, h0]]
      exact List.nil_sublist _
    · intro r hr
      rw [h0] at hr
      cases hr
  · by_cases hc : t.cols = []
    · have hse : search_df t q = Table.empty := by simp [search_df, Table.isEmptyDf, hc]
      refine ⟨?_, ?_, fun h => absurd h h0⟩
      · rw [hse]; exact List.nil_sublist _
      · intro r hr
        rw [hse]
        have hrnil : r = [] := by
          cases r with
          | nil => rfl
          | cons p ps =>
            have hmem := hwf (p :: ps) hr p (List.mem_cons_self p ps)
            rw [hc] at hmem
            cases hmem
        subst hrnil
        simp only [Table.empty, List.not_mem_nil, false_iff]
        rintro (hex | hex) <;>
          exact not_exists_decomp_of_ne_empty hq (by rw [searchFieldStr_nil]; rfl) hex
    · have hne : ¬(t.isEmptyDf = true) := by
        simp [Table.isEmptyDf, List.isEmpty_iff, h0, hc]
      have hsearch : search_df t q
          = ⟨t.cols, t.rows.filter (fun r => rowMatchesQuery q r)⟩ := by
        rw [search_df, if_neg hne]
      refine ⟨?_, ?_, fun h => absurd h h0⟩
      · rw [hsearch]; exact List.filter_sublist _
      · intro r hr
        rw [hsearch]
        simp only [List.mem_filter, hr, true_and]
        rw [rowMatchesQuery, Bool.or_eq_true, fieldMatchB_iff, fieldMatchB_iff]

/-- Witness for C3: the query "abc" matches the row with barcode "XABCY" and
not the row with barcode "ABD"; searching an empty table yields the empty
frame. -/
theorem claim3_witness :
    (("abc" : String) ≠ ""
     ∧ (Table.mk ["itembarcode", "description"]
         [[("itembarcode", some "XABCY"), ("description", some "w")],
          [("itembarcode", some "ABD"), ("description", some "v")]]).WF)
    ∧ (search_df ⟨["itembarcode", "description"],
        [[("itembarcode", some "XABCY"), ("description", some "w")],
         [("itembarcode", some "ABD"), ("description", some "v")]]⟩ "abc").rows.Sublist
        [[("itembarcode", some "XABCY"), ("description", some "w")],
         [("itembarcode", some "ABD"), ("description", some "v")]]
    ∧ (search_df ⟨["itembarcode", "description"],
        [[("itembarcode", some "XABCY"), ("description", some "w")],
         [("itembarcode", some "ABD"), ("description", some "v")]]⟩ "abc").rows
        = [[("itembarcode", some "XABCY"), ("description", some "w")]]
    ∧ search_df ⟨["itembarcode", "description"], []⟩ "abc" = Table.empty :=
  ⟨⟨by decide, by decide⟩,
   (claim3_text_search ⟨["itembarcode", "description"],
      [[("itembarcode", some "XABCY"), ("description", some "w")],
       [("itembarcode", some "ABD"), ("description", some "v")]]⟩ "abc"
      (by decide) (by decide)).1,
   by decide, by decide⟩

/-- C5: for tables that both contain the category column, the category index
is the sentinel "All Categories" followed by the trimmed present category
values of both tables, deduplicated, holding exactly those values, sorted
lexicographically ascending. -/
theorem claim5_category_index (stock_df arrival_df : Table)
    (hs : CATEGORY_COLUMN ∈ stock_df.cols) (ha : CATEGORY_COLUMN ∈ arrival_df.cols) :
    (all_categories stock_df arrival_df).head? = some "All Categories"
    ∧ (all_categories stock_df arrival_df).tail.Pairwise (fun a b => strLeB a b = true)
    ∧ (all_categories stock_df arrival_df).tail.Nodup
    ∧ ∀ x, (x ∈ (all_categories stock_df arrival_df).tail ↔
        x ∈ (columnTextValues stock_df CATEGORY_COLUMN ++
             columnTextValues arrival_df CATEGORY_COLUMN).map trimStr) := by
  have htail : (all_categories stock_df arrival_df).tail
      = sortStrings (pdUnique ((columnTextValues stock_df CATEGORY_COLUMN ++
          columnTextValues arrival_df CATEGORY_COLUMN).map trimStr)) := rfl
  refine ⟨rfl, ?_, ?_, ?_⟩
  · rw [htail]; exact sortStrings_pairwise _
  · rw [htail]; exact sortStrings_nodup (pdUnique_nodup _)
  · intro x; rw [htail, mem_sortStrings, mem_pdUnique]

/-- Witness for C5 at the concrete tables of the specification example. -/
theorem claim5_witness :
    (CATEGORY_COLUMN ∈ (Table.mk ["Category"]
        [[("Category", some "Tools")], [("Category", some "Parts")]]).cols
     ∧ CATEGORY_COLUMN ∈ (Table.mk ["Category"] ([] : List Row)).cols)
    ∧ (all_categories ⟨["Category"], [[("Category", some "Tools")], [("Category", some "Parts")]]⟩
        ⟨["Category"], []⟩).head? = some "All Categories"
    ∧ all_categories ⟨["Category"], [[("Category", some "Tools")], [("Category", some "Parts")]]⟩
        ⟨["Category"], []⟩ = ["All Categories", "Parts", "Tools"] :=
  ⟨⟨by decide, by decide⟩,
   (claim5_category_index ⟨["Category"], [[("Category", some "Tools")], [("Category", some "Parts")]]⟩
      ⟨["Category"], []⟩ (by decide) (by decide)).1,
   by decide⟩

/-- C6 (counterexample): the claim says every entirely-empty source row is
absent from the normalized result, including when the source lacks a
Category column.  On a source table with a single column "itembarcode" and
one all-missing row, the loader first creates `Category = "Uncategorized"`
for every row, so the row is no longer all-missing when `dropna(how='all')`
runs at line 73, and it is retained: the normalized table has 1 row, not 0. -/
theorem claim6_counterexample :
    Row.allMissing [("itembarcode", (none : Cell))] = true
    ∧ (Table.mk ["itembarcode"] [[("itembarcode", (none : Cell))]]).rows.all Row.allMissing
        = true
    ∧ (normalizeDf ⟨["itembarcode"], [[("itembarcode", (none : Cell))]]⟩).rows.length = 1 := by
  decide

/-- C6 (amended): every entirely-empty source row is discarded by
normalization provided the source table (after header stripping) contains
the Category column: the normalized table then has at most as many rows as
the source has rows that are not all-missing.  (When the Category column is
absent, the sentinel value created for it makes every row non-empty and all
rows, including entirely-empty source rows, are retained.) -/
theorem claim6_amended (t : Table)
    (hcat : CATEGORY_COLUMN ∈ t.cols.map trimStr) :
    (normalizeDf t).rows.length ≤ (t.rows.filter (fun r => !Row.allMissing r)).length := by
  rcases hmatch : costColMatch t.cols with _ | ⟨c, rest⟩
  · by_cases hic : COST_COLUMN_FOUND ∈ (Table.stripCols t).cols
    · have hset : (Table.stripCols t).setCol COST_COLUMN_FOUND none
          = ⟨(Table.stripCols t).cols,
             (Table.stripCols t).rows.map (fun r => r.map
               (fun p => if p.1 == COST_COLUMN_FOUND then (COST_COLUMN_FOUND, none) else p))⟩ := by
        rw [Table.setCol, if_pos hic]
      have hcatmem : CATEGORY_COLUMN
          ∈ ((Table.stripCols t).setCol COST_COLUMN_FOUND none).cols := by
        rw [hset]
        exact hcat
      have hnorm : normalizeDf t
          = ((if CATEGORY_COLUMN ∈ ((Table.stripCols t).setCol COST_COLUMN_FOUND none).cols
              then (Table.stripCols t).setCol COST_COLUMN_FOUND none
              else ((Table.stripCols t).setCol COST_COLUMN_FOUND none).setCol CATEGORY_COLUMN
                (some "Uncategorized"))).dropAllNaRows := by
        simp only [normalizeDf]
        rw [hmatch]
      rw [hnorm, if_pos hcatmem, hset]
      show (((Table.stripCols t).rows.map (fun r => r.map
            (fun p => if p.1 == COST_COLUMN_FOUND then (COST_COLUMN_FOUND, none) else p))).filter
          (fun r => !Row.allMissing r)).length
        ≤ (t.rows.filter (fun r => !Row.allMissing r)).length
      rw [show (Table.stripCols t).rows
          = t.rows.map (fun r => r.map (fun p => (trimStr p.1, p.2))) from rfl]
      rw [List.map_map]
      exact filter_notAllMissing_map_le _ (fun r h => by
        simp only [Function.comp]
        refine allMissing_map_mono _
          (fun p => by by_cases hp : (p.1 == COST_COLUMN_FOUND) = true <;> simp [hp]) _ ?_
        rw [allMissing_map_sndPreserving (fun p => (trimStr p.1, p.2)) (fun p => rfl)]
        exact h) t.rows
    · have hset : (Table.stripCols t).setCol COST_COLUMN_FOUND none
          = ⟨(Table.stripCols t).cols ++ [COST_COLUMN_FOUND],
             (Table.stripCols t).rows.map (fun r => r ++ [(COST_COLUMN_FOUND, none)])⟩ := by
        rw [Table.setCol, if_neg hic]
      have hcatmem : CATEGORY_COLUMN
          ∈ ((Table.stripCols t).setCol COST_COLUMN_FOUND none).cols := by
        rw [hset]
        exact List.mem_append_left _ hcat
      have hnorm : normalizeDf t
          = ((if CATEGORY_COLUMN ∈ ((Table.stripCols t).setCol COST_COLUMN_FOUND none).cols
              then (Table.stripCols t).setCol COST_COLUMN_FOUND none
              else ((Table.stripCols t).setCol COST_COLUMN_FOUND none).setCol CATEGORY_COLUMN
                (some "Uncategorized"))).dropAllNaRows := by
        simp only [normalizeDf]
        rw [hmatch]
      rw [hnorm, if_pos hcatmem, hset]
      show (((Table.stripCols t).rows.map (fun r => r ++ [(COST_COLUMN_FOUND, none)])).filter
          (fun r => !Row.allMissing r)).length
        ≤ (t.rows.filter (fun r => !Row.allMissing r)).length
      rw [show (Table.stripCols t).rows
          = t.rows.map (fun r => r.map (fun p => (trimStr p.1, p.2))) from rfl]
      rw [List.map_map]
      exact Nat.le_of_eq (filter_notAllMissing_map _ (fun r => by
        simp only [Function.comp]
        rw [allMissing_append_none,
          allMissing_map_sndPreserving (fun p => (trimStr p.1, p.2)) (fun p => rfl)]) t.rows)
  · have hcmem : c ∈ costColMatch t.cols := by
      rw [hmatch]; exact List.mem_cons_self c rest
    have hcprop := (List.mem_filter.mp hcmem).2
    have hcne : c ≠ CATEGORY_COLUMN := by
      rintro rfl
      exact absurd hcprop (by decide)
    have hccat : (CATEGORY_COLUMN == c) = false := by
      simp only [beq_eq_false_iff_ne]
      exact fun h => hcne h.symm
    have hcatmem2 : CATEGORY_COLUMN
        ∈ ((Table.stripCols t).renameCol c COST_COLUMN_FOUND).cols := by
      rw [Table.renameCol]
      exact List.mem_map.mpr ⟨CATEGORY_COLUMN, hcat, by simp [hccat]⟩
    have hnorm : normalizeDf t
        = ((if CATEGORY_COLUMN ∈ ((Table.stripCols t).renameCol c COST_COLUMN_FOUND).cols
            then (Table.stripCols t).renameCol c COST_COLUMN_FOUND
            else ((Table.stripCols t).renameCol c COST_COLUMN_FOUND).setCol CATEGORY_COLUMN
              (some "Uncategorized"))).dropAllNaRows := by
      simp only [normalizeDf]
      rw [hmatch]
    rw [hnorm, if_pos hcatmem2]
    show (((Table.stripCols t).rows.map (renameKey c COST_COLUMN_FOUND)).filter
        (fun r => !Row.allMissing r)).length
      ≤ (t.rows.filter (fun r => !Row.allMissing r)).length
    rw [show (Table.stripCols t).rows
        = t.rows.map (fun r => r.map (fun p => (trimStr p.1, p.2))) from rfl]
    rw [List.map_map]
    exact Nat.le_of_eq (filter_notAllMissing_map _ (fun r => by
      simp only [Function.comp, renameKey]
      rw [allMissing_map_sndPreserving (fun p => if p.1 == c then (COST_COLUMN_FOUND, p.2) else p)
            (fun p => by by_cases h : (p.1 == c) = true <;> simp [h]),
          allMissing_map_sndPreserving (fun p => (trimStr p.1, p.2)) (fun p => rfl)]) t.rows)

/-- Witness for C6 (amended) at a concrete table with a Category column, one
all-missing row and one non-empty row. -/
theorem claim6_witness :
    CATEGORY_COLUMN ∈ (["itembarcode", "Category"] : List String).map trimStr
    ∧ (normalizeDf ⟨["itembarcode", "Category"],
        [[("itembarcode", (none : Cell)), ("Category", none)],
         [("itembarcode", some "A"), ("Category", some "T")]]⟩).rows.length
      ≤ ([[("itembarcode", (none : Cell)), ("Category", none)],
          [("itembarcode", some "A"), ("Category", some "T")]].filter
          (fun r => !Row.allMissing r)).length
    ∧ (normalizeDf ⟨["itembarcode", "Category"],
        [[("itembarcode", (none : Cell)), ("Category", none)],
         [("itembarcode", some "A"), ("Category", some "T")]]⟩).rows.length = 1 :=
  ⟨by decide,
   claim6_amended ⟨["itembarcode", "Category"],
     [[("itembarcode", (none : Cell)), ("Category", none)],
      [("itembarcode", some "A"), ("Category", some "T")]]⟩ (by decide),
   by decide⟩

/-! ## Table-level transfer lemmas for the display projector -/

theorem cols_dropCol (t : Table) (d : String) :
    (t.dropCol d).cols = t.cols.filter (fun x => x != d) := rfl

theorem not_mem_cols_dropCol (t : Table) (d : String) : d ∉ (t.dropCol d).cols := by
  simp [Table.dropCol, List.mem_filter]

theorem mem_cols_dropCol (t : Table) {x d : String} (hxd : x ≠ d) :
    x ∈ (t.dropCol d).cols ↔ x ∈ t.cols := by
  simp [Table.dropCol, List.mem_filter, hxd]

theorem mem_cols_renameCol (t : Table) {o n x : String} (hxo : x ≠ o) (hxn : x ≠ n) :
    x ∈ (t.renameCol o n).cols ↔ x ∈ t.cols := by
  simp only [Table.renameCol, List.mem_map]
  constructor
  · rintro ⟨y, hy, hyx⟩
    by_cases h : y = o
    · subst h
      rw [if_pos (by simp)] at hyx
      exact absurd hyx.symm hxn
    · rw [if_neg (by simp [h])] at hyx
      subst hyx
      exact hy
  · intro hx
    exact ⟨x, hx, by simp [hxo]⟩

theorem target_mem_cols_renameCol (t : Table) {o : String} (n : String) (h : o ∈ t.cols) :
    n ∈ (t.renameCol o n).cols := by
  simp only [Table.renameCol, List.mem_map]
  exact ⟨o, h, by simp⟩

theorem colCells_dropCol (t : Table) {c d : String} (hcd : c ≠ d) :
    colCells (t.dropCol d) c = colCells t c := by
  simp only [colCells, Table.dropCol, List.map_map]
  exact mapCongrMem _ (fun r _ => getCellFlat_filter_ne r hcd)

theorem colCells_renameCol_ne (t : Table) {o n c : String} (hco : c ≠ o) (hcn : c ≠ n) :
    colCells (t.renameCol o n) c = colCells t c := by
  simp only [colCells, Table.renameCol, List.map_map]
  exact mapCongrMem _ (fun r _ => getCellFlat_renameKey_ne r hco hcn)

theorem colCells_renameCol_target (t : Table) {o n : String}
    (hno : ∀ r ∈ t.rows, ∀ p ∈ r, p.1 ≠ n) :
    colCells (t.renameCol o n) n = colCells t o := by
  simp only [colCells, Table.renameCol, List.map_map]
  exact mapCongrMem _ (fun r hrw => getCellFlat_renameKey_target r (hno r hrw))

theorem rows_length_dropCol (t : Table) (d : String) :
    (t.dropCol d).rows.length = t.rows.length := by
  simp [Table.dropCol]

theorem rows_length_renameCol (t : Table) (o n : String) :
    (t.renameCol o n).rows.length = t.rows.length := by
  simp [Table.renameCol]

/-- C7 (counterexample): the claim quantifies over every input table, but on
a zero-row input that still has columns (including the standardized cost
column) the projector returns the fresh empty frame with no columns at all,
so with reveal-cost true the cost column is not present under "COST" and the
other columns are not identical to the input. -/
theorem claim7_counterexample :
    COST_COLUMN_FOUND ∈ (Table.mk ["itembarcode", "internal_cost"] ([] : List Row)).cols
    ∧ create_overview_df ⟨["itembarcode", "internal_cost"], []⟩ true = Table.empty
    ∧ toUpperStr COST_COLUMN
        ∉ (create_overview_df ⟨["itembarcode", "internal_cost"], []⟩ true).cols
    ∧ "itembarcode" ∉ (create_overview_df ⟨["itembarcode", "internal_cost"], []⟩ true).cols := by
  decide

/-- C7 (amended): for every input table with at least one row and at least
one column, the Display Projector never outputs the category column; with
reveal-cost false the standardized cost column is absent from the output;
with reveal-cost true, if the standardized cost column is present in the
input (and the input is well-formed without a pre-existing "COST" column) it
appears under the uppercased label "COST" with its values unchanged;
removing or renaming an absent column is a no-op; every other column is kept
with identical cells, and the row count (hence row order and content) is
unchanged.  For an empty input the output is the empty frame (claim 10). -/
theorem claim7_amended (t : Table) (sc : Bool)
    (hr : t.rows ≠ []) (hc : t.cols ≠ []) :
    CATEGORY_COLUMN ∉ (create_overview_df t sc).cols
    ∧ (sc = false → COST_COLUMN_FOUND ∉ (create_overview_df t sc).cols)
    ∧ (sc = true → COST_COLUMN_FOUND ∈ t.cols → toUpperStr COST_COLUMN ∉ t.cols →
        t.WF →
        (toUpperStr COST_COLUMN ∈ (create_overview_df t sc).cols
         ∧ colCells (create_overview_df t sc) (toUpperStr COST_COLUMN)
             = colCells t COST_COLUMN_FOUND))
    ∧ (∀ c, c ≠ CATEGORY_COLUMN → c ≠ COST_COLUMN_FOUND → c ≠ toUpperStr COST_COLUMN →
        ((c ∈ (create_overview_df t sc).cols ↔ c ∈ t.cols)
         ∧ colCells (create_overview_df t sc) c = colCells t c))
    ∧ (create_overview_df t sc).rows.length = t.rows.length := by
  have hne : ¬(t.isEmptyDf = true) := by
    simp [Table.isEmptyDf, List.isEmpty_iff, hr, hc]
  have hIcCat : COST_COLUMN_FOUND ≠ CATEGORY_COLUMN := by decide
  have hCostuCat : toUpperStr COST_COLUMN ≠ CATEGORY_COLUMN := by decide
  cases sc with
  | false =>
    by_cases hmem : COST_COLUMN_FOUND ∈ t.cols
    · have hd1 : create_overview_df t false
          = (if CATEGORY_COLUMN ∈ (t.dropCol COST_COLUMN_FOUND).cols
             then (t.dropCol COST_COLUMN_FOUND).dropCol CATEGORY_COLUMN
             else t.dropCol COST_COLUMN_FOUND) := by
        simp [create_overview_df, Table.isEmptyDf, List.isEmpty_iff, hr, hc, hmem]
      rw [hd1]
      by_cases hcatD : CATEGORY_COLUMN ∈ (t.dropCol COST_COLUMN_FOUND).cols
      · rw [if_pos hcatD]
        refine ⟨not_mem_cols_dropCol _ _, ?_, ?_, ?_, ?_⟩
        · intro _ hm
          exact not_mem_cols_dropCol t COST_COLUMN_FOUND
            ((mem_cols_dropCol _ hIcCat).mp hm)
        · intro h; exact absurd h (by decide)
        · intro c hc1 hc2 _
          exact ⟨by rw [mem_cols_dropCol _ hc1, mem_cols_dropCol _ hc2],
                 by rw [colCells_dropCol _ hc1, colCells_dropCol _ hc2]⟩
        · rw [rows_length_dropCol, rows_length_dropCol]
      · rw [if_neg hcatD]
        refine ⟨hcatD, ?_, ?_, ?_, ?_⟩
        · intro _; exact not_mem_cols_dropCol _ _
        · intro h; exact absurd h (by decide)
        · intro c _ hc2 _
          exact ⟨mem_cols_dropCol _ hc2, colCells_dropCol _ hc2⟩
        · rw [rows_length_dropCol]
    · have hd1 : create_overview_df t false
          = (if CATEGORY_COLUMN ∈ t.cols then t.dropCol CATEGORY_COLUMN else t) := by
        simp [create_overview_df, Table.isEmptyDf, List.isEmpty_iff, hr, hc, hmem]
      rw [hd1]
      by_cases hcatT : CATEGORY_COLUMN ∈ t.cols
      · rw [if_pos hcatT]
        refine ⟨not_mem_cols_dropCol _ _, ?_, ?_, ?_, ?_⟩
        · intro _ hm
          exact hmem ((mem_cols_dropCol t hIcCat).mp hm)
        · intro h; exact absurd h (by decide)
        · intro c hc1 _ _
          exact ⟨mem_cols_dropCol t hc1, colCells_dropCol t hc1⟩
        · rw [rows_length_dropCol]
      · rw [if_neg hcatT]
        refine ⟨hcatT, fun _ => hmem, ?_, ?_, rfl⟩
        · intro h; exact absurd h (by decide)
        · intro c _ _ _
          exact ⟨Iff.rfl, rfl⟩
  | true =>
    by_cases hmem : COST_COLUMN_FOUND ∈ t.cols
    · have hd1 : create_overview_df t true
          = (if CATEGORY_COLUMN
               ∈ (t.renameCol COST_COLUMN_FOUND (toUpperStr COST_COLUMN)).cols
             then (t.renameCol COST_COLUMN_FOUND
                (toUpperStr COST_COLUMN)).dropCol CATEGORY_COLUMN
             else t.renameCol COST_COLUMN_FOUND (toUpperStr COST_COLUMN)) := by
        simp [create_overview_df, Table.isEmptyDf, List.isEmpty_iff, hr, hc, hmem]
      rw [hd1]
      by_cases hcatD : CATEGORY_COLUMN
          ∈ (t.renameCol COST_COLUMN_FOUND (toUpperStr COST_COLUMN)).cols
      · rw [if_pos hcatD]
        refine ⟨not_mem_cols_dropCol _ _, ?_, ?_, ?_, ?_⟩
        · intro h; exact absurd h (by decide)
        · intro _ _ hCOSTnot hwf
          have hno : ∀ r ∈ t.rows, ∀ p ∈ r, p.1 ≠ toUpperStr COST_COLUMN :=
            fun r hrw p hp h => hCOSTnot (h ▸ hwf r hrw p hp)
          refine ⟨(mem_cols_dropCol _ hCostuCat).mpr
              (target_mem_cols_renameCol t _ hmem), ?_⟩
          rw [colCells_dropCol _ hCostuCat, colCells_renameCol_target t hno]
        · intro c hc1 hc2 hc3
          exact ⟨by rw [mem_cols_dropCol _ hc1, mem_cols_renameCol t hc2 hc3],
                 by rw [colCells_dropCol _ hc1, colCells_renameCol_ne t hc2 hc3]⟩
        · rw [rows_length_dropCol, rows_length_renameCol]
      · rw [if_neg hcatD]
        refine ⟨hcatD, ?_, ?_, ?_, ?_⟩
        · intro h; exact absurd h (by decide)
        · intro _ _ hCOSTnot hwf
          have hno : ∀ r ∈ t.rows, ∀ p ∈ r, p.1 ≠ toUpperStr COST_COLUMN :=
            fun r hrw p hp h => hCOSTnot (h ▸ hwf r hrw p hp)
          exact ⟨target_mem_cols_renameCol t _ hmem, colCells_renameCol_target t hno⟩
        · intro c _ hc2 hc3
          exact ⟨mem_cols_renameCol t hc2 hc3, colCells_renameCol_ne t hc2 hc3⟩
        · rw [rows_length_renameCol]
    · have hd1 : create_overview_df t true
          = (if CATEGORY_COLUMN ∈ t.cols then t.dropCol CATEGORY_COLUMN else t) := by
        simp [create_overview_df, Table.isEmptyDf, List.isEmpty_iff, hr, hc, hmem]
      rw [hd1]
      by_cases hcatT : CATEGORY_COLUMN ∈ t.cols
      · rw [if_pos hcatT]
        refine ⟨not_mem_cols_dropCol _ _, ?_, ?_, ?_, ?_⟩
        · intro h; exact absurd h (by decide)
        · intro _ h2 _ _; exact absurd h2 hmem
        · intro c hc1 _ _
          exact ⟨mem_cols_dropCol t hc1, colCells_dropCol t hc1⟩
        · rw [rows_length_dropCol]
      · rw [if_neg hcatT]
        refine ⟨hcatT, ?_, ?_, ?_, rfl⟩
        · intro h; exact absurd h (by decide)
        · intro _ h2 _ _; exact absurd h2 hmem
        · intro c _ _ _
          exact ⟨Iff.rfl, rfl⟩

/-- Witness for C7 (amended) at a concrete one-row table carrying barcode,
cost and category columns, with reveal-cost true. -/
theorem claim7_witness :
    ((Table.mk ["itembarcode", "internal_cost", "Category"]
        [[("itembarcode", some "A1"), ("internal_cost", some "5"),
          ("Category", some "Tools")]]).rows ≠ []
     ∧ (Table.mk ["itembarcode", "internal_cost", "Category"]
        [[("itembarcode", some "A1"), ("internal_cost", some "5"),
          ("Category", some "Tools")]]).cols ≠ [])
    ∧ CATEGORY_COLUMN ∉ (create_overview_df ⟨["itembarcode", "internal_cost", "Category"],
        [[("itembarcode", some "A1"), ("internal_cost", some "5"),
          ("Category", some "Tools")]]⟩ true).cols
    ∧ create_overview_df ⟨["itembarcode", "internal_cost", "Category"],
        [[("itembarcode", some "A1"), ("internal_cost", some "5"),
          ("Category", some "Tools")]]⟩ true
      = ⟨["itembarcode", "COST"], [[("itembarcode", some "A1"), ("COST", some "5")]]⟩ :=
  ⟨⟨by decide, by decide⟩,
   (claim7_amended ⟨["itembarcode", "internal_cost", "Category"],
      [[("itembarcode", some "A1"), ("internal_cost", some "5"),
        ("Category", some "Tools")]]⟩ true (by decide) (by decide)).1,
   by decide⟩
